import Mathlib

/-
Verification of the chat widget in src/app/components/ChatBot.tsx
(the ChatBot component): the message-lifecycle state machine of
handleSendMessage and the lightweight markdown renderer
(parseMarkdown / renderBoldText).

Strings are modelled as List Char (JS strings are sequences of code
units; every string operation the component uses - trim, split,
startsWith, endsWith, slice, replace of a leading bullet - is modelled
character by character).  Clock reads (Date.now(), new Date()) are
modelled as Nat parameters supplied at each read site.  Message ids are
produced by Date.now().toString() and compared only by equality, so they
are modelled by the underlying Nat (decimal rendering is injective).
-/

namespace Chatbot

/-- The set of characters removed by JS String.prototype.trim and matched
by the regex class backslash-s: WhiteSpace and LineTerminator code
points. -/
def isJsWhitespace (c : Char) : Bool :=
  c.val = 9 || c.val = 10 || c.val = 11 || c.val = 12 || c.val = 13 ||
  c.val = 32 || c.val = 160 || c.val = 5760 ||
  (8192 ≤ c.val && c.val ≤ 8202) || c.val = 8232 || c.val = 8233 ||
  c.val = 8239 || c.val = 8287 || c.val = 12288 || c.val = 65279

/-- JS String.prototype.trim: remove leading and trailing whitespace. -/
def trimList (l : List Char) : List Char :=
  ((l.dropWhile isJsWhitespace).reverse.dropWhile isJsWhitespace).reverse

/-- JS text.split with separator a single newline: "a\nb" gives
["a", "b"], the empty string gives [""], a trailing separator yields a
trailing empty piece. -/
def splitOnNewline : List Char → List (List Char)
  | [] => [[]]
  | c :: rest =>
    if c = '\n' then [] :: splitOnNewline rest
    else
      match splitOnNewline rest with
      | h :: t => (c :: h) :: t
      | [] => [[c]]

/-- Does the list start with two asterisks (the bold marker)? -/
def twoStars (l : List Char) : Bool :=
  match l with
  | c1 :: c2 :: _ => c1 == '*' && c2 == '*'
  | _ => false

/-- Does the list contain the two-asterisk marker anywhere? -/
def hasMarker : List Char → Bool
  | [] => false
  | c :: rest => twoStars (c :: rest) || hasMarker rest

/-- The ECMAScript LineTerminator characters: LF, CR, LS (U+2028) and
PS (U+2029).  The regex dot matches any character except these. -/
def isLineTerminator (c : Char) : Bool :=
  c == '\n' || c == '\r' || c.val = 8232 || c.val = 8233

/-- Scan for the closing bold marker: the first occurrence of two
asterisks, failing on a line terminator first (the dot of the regex
matches no LineTerminator).  Returns the text before the marker and the
text after it. -/
def findCloser : List Char → Option (List Char × List Char)
  | [] => none
  | c :: rest =>
    if twoStars (c :: rest) then some ([], rest.tail)
    else if isLineTerminator c then none
    else
      match findCloser rest with
      | some (mid, after) => some (c :: mid, after)
      | none => none

/-- Leftmost, shortest (non-greedy) match of the regex
asterisk-asterisk dot-star-question asterisk-asterisk used by
renderBoldText: returns (text before the match, the match, text after
the match).  When an opening marker has no closer before a line
terminator or the end, scanning resumes one character later, exactly as
a JS regex scan does. -/
def findBold : List Char → Option (List Char × List Char × List Char)
  | [] => none
  | c :: rest =>
    if twoStars (c :: rest) then
      match findCloser rest.tail with
      | some (mid, after) => some ([], '*' :: '*' :: (mid ++ ['*', '*']), after)
      | none =>
        match findBold rest with
        | some (p, m, r) => some (c :: p, m, r)
        | none => none
    else
      match findBold rest with
      | some (p, m, r) => some (c :: p, m, r)
      | none => none

/-- JS String.prototype.split on the capturing regex: the pieces between
matches interleaved with the matches themselves, in order.  The fuel is
the length of the input, which suffices because every match consumes at
least four characters. -/
def splitBoldFuel : Nat → List Char → List (List Char)
  | 0, l => [l]
  | Nat.succ fuel, l =>
    match findBold l with
    | none => [l]
    | some (p, m, r) => p :: m :: splitBoldFuel fuel r

/-- text.split on the capturing bold regex, as used by renderBoldText. -/
def splitBold (l : List Char) : List (List Char) :=
  splitBoldFuel l.length l

/-- JS String.prototype.startsWith, on the given pattern. -/
def startsWithChars : List Char → List Char → Bool
  | [], _ => true
  | _ :: _, [] => false
  | p :: ps, c :: cs => p == c && startsWithChars ps cs

/-- JS String.prototype.endsWith, on the given pattern. -/
def endsWithChars (pat l : List Char) : Bool :=
  startsWithChars pat.reverse l.reverse

/-- One rendered span of renderBoldText: a strong (bold) element, or a
plain span. -/
inductive Segment where
  | bold (s : List Char)
  | plain (s : List Char)
deriving DecidableEq, Repr

/-- The per-part branch of renderBoldText: a part that starts and ends
with the two-asterisk marker becomes a strong element holding
part.slice(2, -2); every other part becomes a plain span. -/
def classifyPart (p : List Char) : Segment :=
  if startsWithChars ['*', '*'] p && endsWithChars ['*', '*'] p then
    Segment.bold ((p.drop 2).take (p.length - 4))
  else
    Segment.plain p

/-- renderBoldText: split on the capturing bold regex and classify each
part. -/
def renderBoldText (l : List Char) : List Segment :=
  (splitBold l).map classifyPart

/-- Number of non-overlapping two-asterisk markers in a text, counted
left to right. -/
def countMarkers : List Char → Nat
  | c1 :: c2 :: rest =>
    if c1 == '*' && c2 == '*' then countMarkers rest + 1
    else countMarkers (c2 :: rest)
  | _ => 0

/-- The three visual shapes a line can render to in parseMarkdown. -/
inductive BlockKind where
  | boldBullet
  | plainBullet
  | textBlock
deriving DecidableEq, Repr

/-- One rendered block of parseMarkdown: its shape and the spans of its
content. -/
structure Block where
  kind : BlockKind
  segs : List Segment
deriving DecidableEq, Repr

/-- Is the character a bullet marker (dash or the bullet dot)? -/
def isBulletChar (c : Char) : Bool :=
  c == '-' || c == '•'

/-- trimmedLine.startsWith("- **") or trimmedLine.startsWith("• **"). -/
def boldBulletStart (t : List Char) : Bool :=
  startsWithChars ['-', ' ', '*', '*'] t || startsWithChars ['•', ' ', '*', '*'] t

/-- trimmedLine.startsWith("-") or trimmedLine.startsWith("•"). -/
def bulletStart (t : List Char) : Bool :=
  startsWithChars ['-'] t || startsWithChars ['•'] t

/-- trimmedLine.replace of the leading-bullet regex (one bullet
character, then any whitespace) by the empty string, as applied in both
bullet branches. -/
def stripBullet (t : List Char) : List Char :=
  match t with
  | [] => []
  | c :: rest => if isBulletChar c then rest.dropWhile isJsWhitespace else t

/-- Which branch of parseMarkdown a (trimmed, non-blank) line takes. -/
def lineKind (t : List Char) : BlockKind :=
  if boldBulletStart t then BlockKind.boldBullet
  else if bulletStart t then BlockKind.plainBullet
  else BlockKind.textBlock

/-- The content string a (trimmed, non-blank) line feeds to
renderBoldText: both bullet branches strip the leading bullet, the text
branch keeps the whole trimmed line. -/
def lineContent (t : List Char) : List Char :=
  if bulletStart t then stripBullet t else t

/-- The per-line body of parseMarkdown: trim, drop a blank line, and
otherwise build the block of the chosen branch. -/
def processLine (line : List Char) : Option Block :=
  let t := trimList line
  if t = [] then none
  else some ⟨lineKind t, renderBoldText (lineContent t)⟩

/-- parseMarkdown: split the text on newlines and render each non-blank
line to a block, in order. -/
def parseMarkdown (text : List Char) : List Block :=
  (splitOnNewline text).filterMap processLine

/-- The sender field of a Message. -/
inductive Sender where
  | user
  | agent
deriving DecidableEq, Repr

/-- The Message record of the component.  The id is the Nat behind the
decimal string produced by Date.now().toString(); the timestamp is the
clock value behind new Date(). -/
structure Message where
  id : Nat
  text : List Char
  sender : Sender
  timestamp : Nat
deriving DecidableEq, Repr

/-- The component state the controller mutates: the messages list, the
input buffer and the request-in-flight flag. -/
structure ChatState where
  messages : List Message
  inputValue : List Char
  isThinking : Bool
deriving DecidableEq, Repr

/-- The reserved placeholder text. -/
def thinkingChars : List Char := "Thinking...".data

/-- The synchronous head of handleSendMessage: if the trimmed input is
empty, do nothing; otherwise append the user message (raw text, fresh
id from the clock, current timestamp), clear the input buffer and set
the in-flight flag.  idNow is Date.now() at the id read, ts the clock
at the new Date() read. -/
def submitStep (s : ChatState) (idNow ts : Nat) : ChatState :=
  if trimList s.inputValue = [] then s
  else
    { messages := s.messages ++ [⟨idNow, s.inputValue, Sender.user, ts⟩],
      inputValue := [],
      isThinking := true }

/-- The timer callback: append the agent placeholder with the
remembered typing id and the reserved text. -/
def placeholderStep (s : ChatState) (typingId ts : Nat) : ChatState :=
  { s with messages := s.messages ++ [⟨typingId, thinkingChars, Sender.agent, ts⟩] }

/-- The settle update (both the success path and the catch path run this
same map, differing only in the text): replace text and timestamp of
every message whose id equals the typing id, leave the rest alone, and
clear the in-flight flag (the finally block). -/
def settleStep (s : ChatState) (typingId : Nat) (txt : List Char) (ts : Nat) : ChatState :=
  { s with
    messages := s.messages.map (fun m =>
      if m.id = typingId then { m with text := txt, timestamp := ts } else m),
    isThinking := false }

/-- One choice of the OpenAI-shaped response body: an optional
message.content and an optional top-level text. -/
structure ApiChoice where
  messageContent : Option (List Char)
  text : Option (List Char)
deriving DecidableEq, Repr

/-- The parsed response body: its (possibly missing, modelled empty)
choices array. -/
structure ApiData where
  choices : List ApiChoice
deriving DecidableEq, Repr

/-- The JS or-else on strings: a missing or empty left operand falls
through to the right operand. -/
def jsOr (a : Option (List Char)) (b : List Char) : List Char :=
  match a with
  | some s => if s = [] then b else s
  | none => b

/-- data.choices[0].message.content, or else data.choices[0].text, or
else the empty string (optional chaining plus the JS or). -/
def extractReply (d : ApiData) : List Char :=
  jsOr (d.choices.head?.bind (fun c => c.messageContent))
    (jsOr (d.choices.head?.bind (fun c => c.text)) [])

/-- How the outbound fetch settles: an HTTP response with a status and a
parsed body, a rejection carrying an Error with a message, or a
rejection carrying a non-Error value. -/
inductive FetchOutcome where
  | success (status : Nat) (data : ApiData)
  | networkError (msg : List Char)
  | thrownNonError
deriving DecidableEq, Repr

/-- Response.ok of fetch: status in the 200 to 299 range. -/
def responseOk (status : Nat) : Bool :=
  200 ≤ status && status ≤ 299

/-- The text that finally replaces the placeholder: the extracted reply
on a 2xx response with non-empty extraction; otherwise the thrown
message wrapped in the Error prefix by the catch block; or the generic
fallback when a non-Error value was thrown. -/
def finalText : FetchOutcome → List Char
  | FetchOutcome.success status data =>
    if responseOk status then
      let reply := extractReply data
      if reply = [] then "Error: No response received from AI.".data
      else reply
    else
      "Error: API request failed with status ".data ++ (Nat.repr status).data
  | FetchOutcome.networkError msg => "Error: ".data ++ msg
  | FetchOutcome.thrownNonError => "Sorry, something went wrong while fetching insights.".data

/-- One whole run of handleSendMessage on one submit.  The placeholder
timer (500 ms) is registered before the timer that gates the fetch
(await of a 500 ms sleep), so the placeholder is appended before the
fetch even starts and hence before it settles; the run is therefore the
sequence submit, placeholder, settle.  t0 is Date.now() at the user-id
read, tU the clock at the user timestamp read, t1 Date.now() at the
typing-id read (the typing id is t1 + 1), tP the clock when the
placeholder is appended, tS the clock at settlement. -/
def handleSendMessage (s : ChatState) (t0 tU t1 tP tS : Nat)
    (outcome : FetchOutcome) : ChatState :=
  if trimList s.inputValue = [] then s
  else
    settleStep (placeholderStep (submitStep s t0 tU) (t1 + 1) tP)
      (t1 + 1) (finalText outcome) tS

/-- What the message list renders for one message: agent text goes
through parseMarkdown, user text is shown raw. -/
inductive Rendered where
  | formatted (blocks : List Block)
  | raw (text : List Char)
deriving DecidableEq, Repr

/-- The body of the per-message render: message.sender chooses between
parseMarkdown(message.text) and the raw message.text. -/
def displayContent (m : Message) : Rendered :=
  match m.sender with
  | Sender.agent => Rendered.formatted (parseMarkdown m.text)
  | Sender.user => Rendered.raw m.text

/-! Helper lemmas. -/

/-- A settle map over messages none of which carries the typing id is
the identity. -/
theorem map_settle_of_fresh (l : List Message) (tid : Nat) (txt : List Char) (ts : Nat)
    (h : ∀ m ∈ l, m.id ≠ tid) :
    l.map (fun m => if m.id = tid then { m with text := txt, timestamp := ts } else m) = l := by
  induction l with
  | nil => rfl
  | cons a l ih =>
    simp only [List.map_cons]
    rw [if_neg (h a (List.mem_cons_self a l)),
      ih (fun m hm => h m (List.mem_cons_of_mem a hm))]

/-- The settle map never changes an id or a sender. -/
theorem settle_ids_senders (st : ChatState) (tid : Nat) (txt : List Char) (ts : Nat) :
    (settleStep st tid txt ts).messages.map (fun m => (m.id, m.sender))
      = st.messages.map (fun m => (m.id, m.sender)) := by
  simp only [settleStep, List.map_map]
  apply List.map_congr_left
  intro a _
  by_cases h : a.id = tid <;> simp [h]

/-- Shape of a list on which twoStars holds. -/
theorem twoStars_shape (l : List Char) (h : twoStars l = true) :
    ∃ t, l = '*' :: '*' :: t := by
  cases l with
  | nil => simp [twoStars] at h
  | cons c1 l1 =>
    cases l1 with
    | nil => simp [twoStars] at h
    | cons c2 t =>
      simp only [twoStars, Bool.and_eq_true, beq_iff_eq] at h
      exact ⟨t, by rw [h.1, h.2]⟩

/-- findCloser really returns the text before the first closing marker:
the input decomposes around the marker and the middle holds no marker
and no line terminator. -/
theorem findCloser_spec : ∀ (l mid after : List Char),
    findCloser l = some (mid, after) →
    l = mid ++ '*' :: '*' :: after ∧ hasMarker mid = false
      ∧ ∀ d ∈ mid, isLineTerminator d = false := by
  intro l
  induction l with
  | nil => intro mid after h; exact absurd h (by simp [findCloser])
  | cons c rest ih =>
    intro mid after h
    rw [findCloser] at h
    by_cases h2 : twoStars (c :: rest) = true
    · rw [if_pos h2] at h
      obtain ⟨t, ht⟩ := twoStars_shape _ h2
      injection ht with hc hrest
      subst hc
      simp only [Option.some.injEq, Prod.mk.injEq] at h
      obtain ⟨h4, h5⟩ := h
      subst h4
      subst h5
      subst hrest
      exact ⟨by simp, rfl, fun d hd => absurd hd (List.not_mem_nil d)⟩
    · rw [if_neg h2] at h
      by_cases h3 : isLineTerminator c = true
      · rw [if_pos h3] at h
        exact absurd h (by simp)
      · rw [if_neg h3] at h
        cases hfc : findCloser rest with
        | none => rw [hfc] at h; exact absurd h (by simp)
        | some pr =>
          obtain ⟨mid1, after1⟩ := pr
          rw [hfc] at h
          simp only [Option.some.injEq, Prod.mk.injEq] at h
          obtain ⟨h4, h5⟩ := h
          subst h4
          subst h5
          obtain ⟨hl, hm, hlt⟩ := ih mid1 after1 hfc
          refine ⟨by simp [hl], ?_, ?_⟩
          · rw [hasMarker, hm, Bool.or_false]
            cases mid1 with
            | nil => simp [twoStars]
            | cons d mid2 =>
              rw [hl] at h2
              simp only [twoStars, List.cons_append] at h2 ⊢
              simp only [Bool.not_eq_true] at h2
              exact h2
          · intro d hd
            rcases List.mem_cons.mp hd with rfl | hd2
            · simp only [Bool.not_eq_true] at h3
              exact h3
            · exact hlt d hd2

/-- findBold really returns the leftmost shortest match: the input
decomposes as before-match, match, after-match, and the match is the
marker pair around a middle that holds no marker (no nesting) and no
line terminator (the regex dot crosses neither). -/
theorem findBold_spec : ∀ (l p m r : List Char),
    findBold l = some (p, m, r) →
    ∃ mid, l = p ++ m ++ r ∧ m = '*' :: '*' :: (mid ++ ['*', '*'])
      ∧ hasMarker mid = false
      ∧ ∀ d ∈ mid, isLineTerminator d = false := by
  intro l
  induction l with
  | nil => intro p m r h; exact absurd h (by simp [findBold])
  | cons c rest ih =>
    intro p m r h
    rw [findBold] at h
    by_cases h2 : twoStars (c :: rest) = true
    · rw [if_pos h2] at h
      obtain ⟨t, ht⟩ := twoStars_shape _ h2
      injection ht with hc hrest
      subst hc
      cases hfc : findCloser rest.tail with
      | some pr =>
        obtain ⟨mid, after⟩ := pr
        rw [hfc] at h
        simp only [Option.some.injEq, Prod.mk.injEq] at h
        obtain ⟨h4, h5, h6⟩ := h
        subst h4
        subst h5
        subst h6
        obtain ⟨hl2, hm2, hlt2⟩ := findCloser_spec _ _ _ hfc
        refine ⟨mid, ?_, rfl, hm2, hlt2⟩
        subst hrest
        simp only [List.tail_cons] at hl2
        simp [hl2, List.append_assoc]
      | none =>
        rw [hfc] at h
        cases hfb : findBold rest with
        | none => rw [hfb] at h; exact absurd h (by simp)
        | some tr =>
          obtain ⟨p1, m1, r1⟩ := tr
          rw [hfb] at h
          simp only [Option.some.injEq, Prod.mk.injEq] at h
          obtain ⟨h4, h5, h6⟩ := h
          subst h4
          subst h5
          subst h6
          obtain ⟨mid, hl1, hm1, hmm1, hlt1⟩ := ih p1 m1 r1 hfb
          exact ⟨mid, by simp [hl1], hm1, hmm1, hlt1⟩
    · rw [if_neg h2] at h
      cases hfb : findBold rest with
      | none => rw [hfb] at h; exact absurd h (by simp)
      | some tr =>
        obtain ⟨p1, m1, r1⟩ := tr
        rw [hfb] at h
        simp only [Option.some.injEq, Prod.mk.injEq] at h
        obtain ⟨h4, h5, h6⟩ := h
        subst h4
        subst h5
        subst h6
        obtain ⟨mid, hl1, hm1, hmm1, hlt1⟩ := ih p1 m1 r1 hfb
        exact ⟨mid, by simp [hl1], hm1, hmm1, hlt1⟩

/-- A pattern is a prefix of itself followed by anything. -/
theorem startsWith_self_append : ∀ (p y : List Char),
    startsWithChars p (p ++ y) = true := by
  intro p
  induction p with
  | nil => intro y; rfl
  | cons a p ih => intro y; simp [startsWithChars, ih]

/-- A pattern is a suffix of anything followed by itself. -/
theorem endsWith_append (pat x : List Char) : endsWithChars pat (x ++ pat) = true := by
  unfold endsWithChars
  rw [List.reverse_append]
  exact startsWith_self_append pat.reverse x.reverse

/-- A well-formed match part (marker, middle, marker) is classified as a
bold span holding exactly the middle. -/
theorem classify_bold (mid : List Char) :
    classifyPart ('*' :: '*' :: (mid ++ ['*', '*'])) = Segment.bold mid := by
  have hform : '*' :: '*' :: (mid ++ ['*', '*']) = ('*' :: '*' :: mid) ++ ['*', '*'] := by
    simp
  have h1 : startsWithChars ['*', '*'] ('*' :: '*' :: (mid ++ ['*', '*'])) = true := by
    simp [startsWithChars]
  have h2 : endsWithChars ['*', '*'] ('*' :: '*' :: (mid ++ ['*', '*'])) = true := by
    rw [hform]
    exact endsWith_append ['*', '*'] ('*' :: '*' :: mid)
  unfold classifyPart
  rw [h1, h2, if_pos (show (true && true) = true from rfl)]
  have hd : ('*' :: '*' :: (mid ++ ['*', '*'])).drop 2 = mid ++ ['*', '*'] := rfl
  have hlen4 : ('*' :: '*' :: (mid ++ ['*', '*'])).length = mid.length + 4 := by
    simp only [List.length_cons, List.length_append, List.length_nil]
  rw [hd, hlen4]
  have hsub : mid.length + 4 - 4 = mid.length := by omega
  rw [hsub]
  rw [List.take_left mid ['*', '*']]

/-- The pieces produced by the capturing split concatenate back to the
input, provided the fuel covers the input length. -/
theorem splitBoldFuel_flatten : ∀ (fuel : Nat) (l : List Char), l.length ≤ fuel →
    (splitBoldFuel fuel l).flatten = l := by
  intro fuel
  induction fuel with
  | zero =>
    intro l hl
    have hnil : l = [] := by
      cases l with
      | nil => rfl
      | cons c t => simp at hl
    subst hnil
    simp [splitBoldFuel]
  | succ fuel ih =>
    intro l hl
    cases hfb : findBold l with
    | none => simp [splitBoldFuel, hfb]
    | some tr =>
      obtain ⟨p, m, r⟩ := tr
      obtain ⟨mid, hl1, hm1, -, -⟩ := findBold_spec l p m r hfb
      have hr : r.length ≤ fuel := by
        have h5 := congrArg List.length hl1
        have h6 := congrArg List.length hm1
        simp only [List.length_append, List.length_cons, List.length_nil] at h5 h6
        omega
      simp only [splitBoldFuel, hfb, List.flatten_cons, ih r hr]
      rw [hl1, List.append_assoc]

/-! Claim theorems. -/

/-- C2: for every input whose trim is non-empty, submit appends exactly
one user-sender message carrying the raw input text and clears the
input buffer; for an empty or all-whitespace input, submit is a no-op:
state unchanged, nothing appended, nothing signalled. -/
theorem C2_submit_guard (s : ChatState) (idNow ts : Nat) :
    (trimList s.inputValue ≠ [] →
      (submitStep s idNow ts).messages
          = s.messages ++ [⟨idNow, s.inputValue, Sender.user, ts⟩]
        ∧ (submitStep s idNow ts).inputValue = [])
    ∧ (trimList s.inputValue = [] → submitStep s idNow ts = s) := by
  constructor
  · intro h
    simp [submitStep, h]
  · intro h
    simp [submitStep, h]

/-- Witness for C2 at the concrete inputs "  hi " (kept raw, buffer
cleared) and "   " (no-op). -/
theorem C2_submit_guard_witness :
    (trimList "  hi ".data ≠ [] ∧
      ((submitStep ⟨[], "  hi ".data, false⟩ 7 8).messages
          = [⟨7, "  hi ".data, Sender.user, 8⟩]
        ∧ (submitStep ⟨[], "  hi ".data, false⟩ 7 8).inputValue = []))
    ∧ (trimList "   ".data = []
        ∧ submitStep ⟨[], "   ".data, false⟩ 7 8 = ⟨[], "   ".data, false⟩) :=
  ⟨⟨by decide, (C2_submit_guard ⟨[], "  hi ".data, false⟩ 7 8).1 (by decide)⟩,
   ⟨by decide, (C2_submit_guard ⟨[], "   ".data, false⟩ 7 8).2 (by decide)⟩⟩

/-- C3: the settle update keeps the list length, rewrites text and
timestamp of exactly the positions holding the pending-reply-target id,
and leaves every other position bit-for-bit unchanged (id, text,
sender, timestamp); the success path and the error path run this same
update, differing only in the replacement text. -/
theorem C3_settle_frame (s : ChatState) (typingId : Nat) (txt : List Char) (ts : Nat) :
    ((settleStep s typingId txt ts).messages.length = s.messages.length)
    ∧ (∀ i (h1 : i < s.messages.length)
        (h2 : i < (settleStep s typingId txt ts).messages.length),
        (s.messages.get ⟨i, h1⟩).id ≠ typingId →
          (settleStep s typingId txt ts).messages.get ⟨i, h2⟩ = s.messages.get ⟨i, h1⟩)
    ∧ (∀ i (h1 : i < s.messages.length)
        (h2 : i < (settleStep s typingId txt ts).messages.length),
        (s.messages.get ⟨i, h1⟩).id = typingId →
          (settleStep s typingId txt ts).messages.get ⟨i, h2⟩
            = { s.messages.get ⟨i, h1⟩ with text := txt, timestamp := ts }) := by
  refine ⟨by simp [settleStep], ?_, ?_⟩
  · intro i h1 h2 hne
    simp only [List.get_eq_getElem] at hne
    simp only [settleStep, List.get_eq_getElem, List.getElem_map]
    rw [if_neg hne]
  · intro i h1 h2 heq
    simp only [List.get_eq_getElem] at heq
    simp only [settleStep, List.get_eq_getElem, List.getElem_map]
    rw [if_pos heq]

/-- Witness for C3 on a two-message state: the non-target message is
untouched, the target message gets the new text and timestamp. -/
theorem C3_settle_frame_witness :
    ((settleStep ⟨[⟨1, "u".data, Sender.user, 1⟩, ⟨2, thinkingChars, Sender.agent, 2⟩],
        [], true⟩ 2 "done".data 9).messages.length = 2)
    ∧ (settleStep ⟨[⟨1, "u".data, Sender.user, 1⟩, ⟨2, thinkingChars, Sender.agent, 2⟩],
        [], true⟩ 2 "done".data 9).messages.get ⟨0, by decide⟩
        = ⟨1, "u".data, Sender.user, 1⟩
    ∧ (settleStep ⟨[⟨1, "u".data, Sender.user, 1⟩, ⟨2, thinkingChars, Sender.agent, 2⟩],
        [], true⟩ 2 "done".data 9).messages.get ⟨1, by decide⟩
        = ⟨2, "done".data, Sender.agent, 9⟩ := by
  refine ⟨(C3_settle_frame _ 2 "done".data 9).1, ?_, ?_⟩
  · exact (C3_settle_frame _ 2 "done".data 9).2.1 0 (by decide) (by decide) (by decide)
  · exact (C3_settle_frame _ 2 "done".data 9).2.2 1 (by decide) (by decide) (by decide)

/-- C4: on a 2xx response the reply is the first choice's
message.content when present and non-empty, else the first choice's
text when present and non-empty, in that order; when both are absent or
empty (or there is no first choice) the placeholder's final text is the
no-response error string. -/
theorem C4_reply_extraction (status : Nat) (d : ApiData) (hok : responseOk status = true) :
    (∀ c rest mc, d.choices = c :: rest → c.messageContent = some mc → mc ≠ [] →
        finalText (FetchOutcome.success status d) = mc)
    ∧ (∀ c rest tx, d.choices = c :: rest →
        (c.messageContent = none ∨ c.messageContent = some []) →
        c.text = some tx → tx ≠ [] →
        finalText (FetchOutcome.success status d) = tx)
    ∧ (∀ c rest, d.choices = c :: rest →
        (c.messageContent = none ∨ c.messageContent = some []) →
        (c.text = none ∨ c.text = some []) →
        finalText (FetchOutcome.success status d)
          = "Error: No response received from AI.".data)
    ∧ (d.choices = [] →
        finalText (FetchOutcome.success status d)
          = "Error: No response received from AI.".data) := by
  refine ⟨?_, ?_, ?_, ?_⟩
  · intro c rest mc hch hmc hne
    simp [finalText, hok, extractReply, hch, jsOr, hmc, hne]
  · intro c rest tx hch hmc htx hne
    rcases hmc with hmc | hmc <;>
      simp [finalText, hok, extractReply, hch, jsOr, hmc, htx, hne]
  · intro c rest hch hmc htx
    rcases hmc with hmc | hmc <;> rcases htx with htx | htx <;>
      simp [finalText, hok, extractReply, hch, jsOr, hmc, htx]
  · intro hch
    simp [finalText, hok, extractReply, hch, jsOr]

/-- Witness for C4: with no message.content and text "Hi there", the
placeholder's final text is "Hi there"; with both fields empty, it is
the no-response error string. -/
theorem C4_reply_extraction_witness :
    finalText (FetchOutcome.success 200 ⟨[⟨none, some "Hi there".data⟩]⟩)
        = "Hi there".data
    ∧ finalText (FetchOutcome.success 200 ⟨[⟨some [], some []⟩]⟩)
        = "Error: No response received from AI.".data :=
  ⟨(C4_reply_extraction 200 ⟨[⟨none, some "Hi there".data⟩]⟩ (by decide)).2.1
      ⟨none, some "Hi there".data⟩ [] "Hi there".data rfl (Or.inl rfl) rfl (by decide),
   (C4_reply_extraction 200 ⟨[⟨some [], some []⟩]⟩ (by decide)).2.2.1
      ⟨some [], some []⟩ [] rfl (Or.inr rfl) (Or.inr rfl)⟩

/-- C5: a response whose status lies outside 200 to 299 makes the
placeholder's final text the string "Error: API request failed with
status " followed by the decimal status code. -/
theorem C5_protocol_failure (status : Nat) (d : ApiData)
    (h : status < 200 ∨ 300 ≤ status) :
    finalText (FetchOutcome.success status d)
      = "Error: API request failed with status ".data ++ (Nat.repr status).data := by
  have hnot : responseOk status = false := by
    simp only [responseOk, Bool.and_eq_false_iff, decide_eq_false_iff_not]
    omega
  simp [finalText, hnot]

/-- Witness for C5 at status 500: the final text is exactly
"Error: API request failed with status 500". -/
theorem C5_protocol_failure_witness :
    finalText (FetchOutcome.success 500 ⟨[]⟩)
      = "Error: API request failed with status 500".data :=
  (C5_protocol_failure 500 ⟨[]⟩ (Or.inr (by decide))).trans (by decide)

/-- C9: the markdown renderer is applied to a message's text exactly
when the sender is agent; a user-sender message is displayed as its raw
stored text whatever that text contains. -/
theorem C9_agent_only_formatting (m : Message) :
    (m.sender = Sender.agent →
      displayContent m = Rendered.formatted (parseMarkdown m.text))
    ∧ (m.sender = Sender.user → displayContent m = Rendered.raw m.text) := by
  obtain ⟨id, text, sender, ts⟩ := m
  cases sender <;> simp [displayContent]

/-- Witness for C9: a user message whose text is full of markdown
syntax is still displayed raw, and an agent message goes through the
renderer. -/
theorem C9_agent_only_formatting_witness :
    displayContent ⟨1, "- **x**".data, Sender.user, 0⟩ = Rendered.raw "- **x**".data
    ∧ displayContent ⟨2, "ok".data, Sender.agent, 0⟩
        = Rendered.formatted (parseMarkdown "ok".data) :=
  ⟨(C9_agent_only_formatting ⟨1, "- **x**".data, Sender.user, 0⟩).2 rfl,
   (C9_agent_only_formatting ⟨2, "ok".data, Sender.agent, 0⟩).1 rfl⟩

/-- C1: on a submit of non-empty trimmed input, exactly one agent
placeholder with text "Thinking..." is appended, under a fresh typing id
distinct from the user message's id (the clock does not run backwards
between the two Date.now() reads); at settlement that placeholder is
replaced in place - same id, new text and timestamp - and afterwards
exactly one message carries the pending-reply-target id and at most one
message of this submit is an agent message with text "Thinking...". -/
theorem C1_placeholder_lifecycle (s : ChatState) (t0 tU t1 tP tS : Nat)
    (outcome : FetchOutcome)
    (hne : trimList s.inputValue ≠ [])
    (hmono : t0 ≤ t1)
    (hfresh : ∀ m ∈ s.messages, m.id ≠ t1 + 1) :
    (placeholderStep (submitStep s t0 tU) (t1 + 1) tP).messages
        = (submitStep s t0 tU).messages
            ++ [⟨t1 + 1, thinkingChars, Sender.agent, tP⟩]
    ∧ t1 + 1 ≠ t0
    ∧ handleSendMessage s t0 tU t1 tP tS outcome
        = settleStep (placeholderStep (submitStep s t0 tU) (t1 + 1) tP)
            (t1 + 1) (finalText outcome) tS
    ∧ (handleSendMessage s t0 tU t1 tP tS outcome).messages
        = s.messages ++ [⟨t0, s.inputValue, Sender.user, tU⟩,
            ⟨t1 + 1, finalText outcome, Sender.agent, tS⟩]
    ∧ (handleSendMessage s t0 tU t1 tP tS outcome).messages.countP
        (fun m => m.id == t1 + 1) = 1
    ∧ ((handleSendMessage s t0 tU t1 tP tS outcome).messages.drop
        s.messages.length).countP
        (fun m => m.sender == Sender.agent && m.text == thinkingChars) ≤ 1 := by
  have hsub : (submitStep s t0 tU).messages
      = s.messages ++ [⟨t0, s.inputValue, Sender.user, tU⟩] :=
    ((C2_submit_guard s t0 tU).1 hne).1
  have hid : t0 ≠ t1 + 1 := by omega
  have hmsgs : (handleSendMessage s t0 tU t1 tP tS outcome).messages
      = s.messages ++ [⟨t0, s.inputValue, Sender.user, tU⟩,
          ⟨t1 + 1, finalText outcome, Sender.agent, tS⟩] := by
    simp only [handleSendMessage, if_neg hne, settleStep, placeholderStep, hsub,
      List.append_assoc]
    rw [List.map_append,
      map_settle_of_fresh s.messages (t1 + 1) (finalText outcome) tS hfresh]
    simp [hid]
  refine ⟨rfl, fun h => hid h.symm, by simp only [handleSendMessage, if_neg hne], hmsgs, ?_, ?_⟩
  · rw [hmsgs]
    rw [List.countP_append]
    have h0 : s.messages.countP (fun m => m.id == t1 + 1) = 0 := by
      rw [List.countP_eq_zero]
      intro m hm
      simpa using hfresh m hm
    rw [h0]
    simp [List.countP_cons, hid]
  · rw [hmsgs, List.drop_left]
    by_cases hb : finalText outcome = thinkingChars <;>
      simp [List.countP_cons, hb]

/-- Witness for C1 on the empty starting state with input "hi",
clock values 10 / 10 / 10 / 11 / 12 and a 200 response saying
"Hello". -/
theorem C1_placeholder_lifecycle_witness :
    (placeholderStep (submitStep ⟨[], "hi".data, false⟩ 10 10) 11 11).messages
        = (submitStep ⟨[], "hi".data, false⟩ 10 10).messages
            ++ [⟨11, thinkingChars, Sender.agent, 11⟩]
    ∧ (11 : Nat) ≠ 10
    ∧ handleSendMessage ⟨[], "hi".data, false⟩ 10 10 10 11 12
          (FetchOutcome.success 200 ⟨[⟨some "Hello".data, none⟩]⟩)
        = settleStep (placeholderStep (submitStep ⟨[], "hi".data, false⟩ 10 10) 11 11)
            11 (finalText (FetchOutcome.success 200 ⟨[⟨some "Hello".data, none⟩]⟩)) 12
    ∧ (handleSendMessage ⟨[], "hi".data, false⟩ 10 10 10 11 12
          (FetchOutcome.success 200 ⟨[⟨some "Hello".data, none⟩]⟩)).messages
        = [⟨10, "hi".data, Sender.user, 10⟩,
            ⟨11, finalText (FetchOutcome.success 200 ⟨[⟨some "Hello".data, none⟩]⟩),
              Sender.agent, 12⟩]
    ∧ (handleSendMessage ⟨[], "hi".data, false⟩ 10 10 10 11 12
          (FetchOutcome.success 200 ⟨[⟨some "Hello".data, none⟩]⟩)).messages.countP
        (fun m => m.id == 11) = 1
    ∧ ((handleSendMessage ⟨[], "hi".data, false⟩ 10 10 10 11 12
          (FetchOutcome.success 200 ⟨[⟨some "Hello".data, none⟩]⟩)).messages.drop 0).countP
        (fun m => m.sender == Sender.agent && m.text == thinkingChars) ≤ 1 :=
  C1_placeholder_lifecycle ⟨[], "hi".data, false⟩ 10 10 10 11 12
    (FetchOutcome.success 200 ⟨[⟨some "Hello".data, none⟩]⟩)
    (by decide) (by decide) (by intro m hm; exact absurd hm (List.not_mem_nil m))

/-- C8: over one submit the conversation is append-only: submit and the
timer each append one message at the tail, the settle update deletes
nothing, changes no id or sender and keeps the order, the messages
already present are bit-for-bit unchanged at the end, and the only
mutation is the single placeholder-to-final replacement of text and
timestamp. -/
theorem C8_append_only (s : ChatState) (t0 tU t1 tP tS : Nat)
    (outcome : FetchOutcome)
    (hne : trimList s.inputValue ≠ [])
    (hmono : t0 ≤ t1)
    (hfresh : ∀ m ∈ s.messages, m.id ≠ t1 + 1) :
    (submitStep s t0 tU).messages
        = s.messages ++ [⟨t0, s.inputValue, Sender.user, tU⟩]
    ∧ (placeholderStep (submitStep s t0 tU) (t1 + 1) tP).messages
        = (submitStep s t0 tU).messages
            ++ [⟨t1 + 1, thinkingChars, Sender.agent, tP⟩]
    ∧ (∀ st tid txt ts2, (settleStep st tid txt ts2).messages.length = st.messages.length)
    ∧ (∀ st tid txt ts2,
        (settleStep st tid txt ts2).messages.map (fun m => (m.id, m.sender))
          = st.messages.map (fun m => (m.id, m.sender)))
    ∧ (handleSendMessage s t0 tU t1 tP tS outcome).messages
        = s.messages ++ [⟨t0, s.inputValue, Sender.user, tU⟩,
            ⟨t1 + 1, finalText outcome, Sender.agent, tS⟩]
    ∧ (handleSendMessage s t0 tU t1 tP tS outcome).messages.take s.messages.length
        = s.messages := by
  obtain ⟨h1, h2, h3, hmsgs, -⟩ :=
    C1_placeholder_lifecycle s t0 tU t1 tP tS outcome hne hmono hfresh
  refine ⟨((C2_submit_guard s t0 tU).1 hne).1, h1, ?_, ?_, hmsgs, ?_⟩
  · intro st tid txt ts2
    simp [settleStep]
  · intro st tid txt ts2
    exact settle_ids_senders st tid txt ts2
  · rw [hmsgs, List.take_left]

/-- Witness for C8 on a one-message starting state with input "go" and
an HTTP 404 outcome. -/
theorem C8_append_only_witness :
    (submitStep ⟨[⟨1, "old".data, Sender.agent, 1⟩], "go".data, false⟩ 20 20).messages
        = [⟨1, "old".data, Sender.agent, 1⟩] ++ [⟨20, "go".data, Sender.user, 20⟩]
    ∧ (placeholderStep (submitStep ⟨[⟨1, "old".data, Sender.agent, 1⟩], "go".data, false⟩
          20 20) 21 21).messages
        = (submitStep ⟨[⟨1, "old".data, Sender.agent, 1⟩], "go".data, false⟩ 20 20).messages
            ++ [⟨21, thinkingChars, Sender.agent, 21⟩]
    ∧ (∀ st tid txt ts2, (settleStep st tid txt ts2).messages.length = st.messages.length)
    ∧ (∀ st tid txt ts2,
        (settleStep st tid txt ts2).messages.map (fun m => (m.id, m.sender))
          = st.messages.map (fun m => (m.id, m.sender)))
    ∧ (handleSendMessage ⟨[⟨1, "old".data, Sender.agent, 1⟩], "go".data, false⟩ 20 20 20 21 22
          (FetchOutcome.success 404 ⟨[]⟩)).messages
        = [⟨1, "old".data, Sender.agent, 1⟩] ++ [⟨20, "go".data, Sender.user, 20⟩,
            ⟨21, finalText (FetchOutcome.success 404 ⟨[]⟩), Sender.agent, 22⟩]
    ∧ (handleSendMessage ⟨[⟨1, "old".data, Sender.agent, 1⟩], "go".data, false⟩ 20 20 20 21 22
          (FetchOutcome.success 404 ⟨[]⟩)).messages.take 1
        = [⟨1, "old".data, Sender.agent, 1⟩] :=
  C8_append_only ⟨[⟨1, "old".data, Sender.agent, 1⟩], "go".data, false⟩ 20 20 20 21 22
    (FetchOutcome.success 404 ⟨[]⟩) (by decide) (by decide)
    (by intro m hm; simp at hm; rw [hm]; decide)

/-- C7 (amended): bold rendering is a regular split: the parts
concatenate back to the input; each matched part is a marker pair
around a middle holding no marker (non-greedy, non-recursive) and no
line terminator (the lazy dot crosses neither) and is rendered as a
bold span of exactly that middle; an unmatched part is rendered as
literal plain text - including any trailing unmatched marker - except
when the part itself both starts and ends with the marker (such as an
input that is exactly two or three asterisks, or a marker pair whose
middle is a line terminator), in which case it is rendered as a bold
span of its slice(2, -2). -/
theorem C7_bold_spans :
    (∀ l, renderBoldText l = (splitBold l).map classifyPart)
    ∧ (∀ l, (splitBold l).flatten = l)
    ∧ (∀ l p m r, findBold l = some (p, m, r) →
        ∃ mid, m = '*' :: '*' :: (mid ++ ['*', '*'])
          ∧ hasMarker mid = false
          ∧ (∀ d ∈ mid, isLineTerminator d = false)
          ∧ classifyPart m = Segment.bold mid)
    ∧ (∀ t, findBold t = none →
        ((startsWithChars ['*', '*'] t && endsWithChars ['*', '*'] t) = false →
          classifyPart t = Segment.plain t)
        ∧ ((startsWithChars ['*', '*'] t && endsWithChars ['*', '*'] t) = true →
          classifyPart t = Segment.bold ((t.drop 2).take (t.length - 4)))) := by
  refine ⟨fun l => rfl, fun l => splitBoldFuel_flatten l.length l (Nat.le_refl _), ?_, ?_⟩
  · intro l p m r h
    obtain ⟨mid, -, hm, hmm, hlt⟩ := findBold_spec l p m r h
    exact ⟨mid, hm, hmm, hlt, by rw [hm, classify_bold]⟩
  · intro t _hnone
    constructor
    · intro hcond
      unfold classifyPart
      rw [if_neg]
      simp [hcond]
    · intro hcond
      unfold classifyPart
      rw [if_pos hcond]

/-- Witness for C7: at "x**y**z**" the matched pair becomes a bold
span, the trailing unmatched marker stays literal inside a plain span,
and the split concatenates back to the input; a would-be pair whose
middle is a carriage return is not a match, so "x**a", CR, "b**" stays
one literal plain part, while the unmatched whole-part "**", CR, "**"
is caught by the per-part marker test and becomes a bold span of its
slice(2, -2), the carriage return. -/
theorem C7_bold_spans_witness :
    renderBoldText "x**y**z**".data
        = [Segment.plain ['x'], Segment.bold ['y'], Segment.plain ['z', '*', '*']]
    ∧ (splitBold "x**y**z**".data).flatten = "x**y**z**".data
    ∧ classifyPart "z**".data = Segment.plain "z**".data
    ∧ renderBoldText "x**a\rb**".data = [Segment.plain "x**a\rb**".data]
    ∧ renderBoldText "**\r**".data = [Segment.bold ['\r']]
    ∧ classifyPart "**\r**".data
        = Segment.bold (("**\r**".data.drop 2).take ("**\r**".data.length - 4)) :=
  ⟨by decide, C7_bold_spans.2.1 "x**y**z**".data,
   (C7_bold_spans.2.2.2 "z**".data (by decide)).1 (by decide),
   by decide, by decide,
   (C7_bold_spans.2.2.2 "**\r**".data (by decide)).2 (by decide)⟩

/-- Counterexample to C7 as stated: the input consisting of exactly one
marker (two asterisks) has an odd number of markers, yet its trailing
unmatched marker is not rendered as literal text - the whole input is
classified as a bold span with empty content. -/
theorem C7_bold_spans_counterexample :
    countMarkers "**".data = 1
    ∧ renderBoldText "**".data = [Segment.bold []]
    ∧ Segment.plain "**".data ∉ renderBoldText "**".data := by
  refine ⟨rfl, rfl, ?_⟩
  decide

/-- The head surviving a dropWhile fails the predicate. -/
theorem dropWhile_head_false (p : Char → Bool) :
    ∀ (l : List Char) (c : Char), (l.dropWhile p).head? = some c → p c = false := by
  intro l
  induction l with
  | nil => intro c h; simp at h
  | cons a l ih =>
    intro c h
    by_cases ha : p a = true
    · rw [List.dropWhile_cons_of_pos ha] at h
      exact ih c h
    · rw [List.dropWhile_cons_of_neg ha] at h
      simp only [List.head?_cons, Option.some.injEq] at h
      subst h
      simp only [Bool.not_eq_true] at ha
      exact ha

/-- dropWhile only removes a front segment: a non-empty result keeps the
last element. -/
theorem dropWhile_getLast (p : Char → Bool) :
    ∀ (l : List Char), l.dropWhile p ≠ [] →
      (l.dropWhile p).getLast? = l.getLast? := by
  intro l
  induction l with
  | nil => intro h; exact absurd rfl h
  | cons a l ih =>
    intro h
    by_cases ha : p a = true
    · rw [List.dropWhile_cons_of_pos ha] at h ⊢
      have hl : l ≠ [] := by
        intro hnil
        rw [hnil] at h
        exact absurd rfl h
      rw [ih h]
      cases l with
      | nil => exact absurd rfl hl
      | cons b l2 => rw [List.getLast?_cons_cons]
    · rw [List.dropWhile_cons_of_neg ha]

/-- A list whose head fails the predicate is untouched by dropWhile. -/
theorem dropWhile_of_head_false (p : Char → Bool) (l : List Char)
    (h : ∀ c, l.head? = some c → p c = false) : l.dropWhile p = l := by
  cases l with
  | nil => rfl
  | cons a l =>
    have ha := h a rfl
    rw [List.dropWhile_cons_of_neg (by simp [ha])]

/-- dropWhile of an all-satisfying list is empty. -/
theorem dropWhile_all (p : Char → Bool) :
    ∀ (l : List Char), (∀ c ∈ l, p c = true) → l.dropWhile p = [] := by
  intro l
  induction l with
  | nil => intro h; rfl
  | cons a l ih =>
    intro h
    rw [List.dropWhile_cons_of_pos (h a (List.mem_cons_self a l))]
    exact ih (fun c hc => h c (List.mem_cons_of_mem a hc))

/-- The head of a trimmed string is not whitespace. -/
theorem trim_head (l : List Char) (c : Char)
    (h : (trimList l).head? = some c) : isJsWhitespace c = false := by
  unfold trimList at h
  rw [List.head?_reverse] at h
  have hne : (l.dropWhile isJsWhitespace).reverse.dropWhile isJsWhitespace ≠ [] := by
    intro hnil
    rw [hnil] at h
    simp at h
  rw [dropWhile_getLast _ _ hne, List.getLast?_reverse] at h
  exact dropWhile_head_false _ _ _ h

/-- The last character of a trimmed string is not whitespace. -/
theorem trim_getLast (l : List Char) (c : Char)
    (h : (trimList l).getLast? = some c) : isJsWhitespace c = false := by
  unfold trimList at h
  rw [List.getLast?_reverse] at h
  exact dropWhile_head_false _ _ _ h

/-- Trimming is idempotent. -/
theorem trim_idem (l : List Char) : trimList (trimList l) = trimList l := by
  have h1 : (trimList l).dropWhile isJsWhitespace = trimList l :=
    dropWhile_of_head_false _ _ (fun c hc => trim_head l c hc)
  have h2 : (trimList l).reverse.dropWhile isJsWhitespace = (trimList l).reverse := by
    apply dropWhile_of_head_false
    intro c hc
    rw [List.head?_reverse] at hc
    exact trim_getLast l c hc
  show (((trimList l).dropWhile isJsWhitespace).reverse.dropWhile isJsWhitespace).reverse
      = trimList l
  rw [h1, h2, List.reverse_reverse]

/-- A line of only whitespace trims to nothing. -/
theorem trim_all_ws (l : List Char) (h : ∀ c ∈ l, isJsWhitespace c = true) :
    trimList l = [] := by
  unfold trimList
  rw [dropWhile_all isJsWhitespace l h]
  rfl

/-- The distinct bold-bullet pattern implies the plain bullet pattern. -/
theorem bullet_of_boldBullet (t : List Char) (h : boldBulletStart t = true) :
    bulletStart t = true := by
  cases t with
  | nil => simp [boldBulletStart, startsWithChars] at h
  | cons c rest =>
    simp only [boldBulletStart, startsWithChars, Bool.or_eq_true, Bool.and_eq_true,
      beq_iff_eq] at h
    simp only [bulletStart, startsWithChars, Bool.or_eq_true, Bool.and_eq_true,
      beq_iff_eq]
    rcases h with ⟨hc, -⟩ | ⟨hc, -⟩
    · exact Or.inl ⟨hc, trivial⟩
    · exact Or.inr ⟨hc, trivial⟩

/-- A line matching the bullet pattern opens with a bullet character. -/
theorem bullet_shape (t : List Char) (h : bulletStart t = true) :
    ∃ c rest, t = c :: rest ∧ isBulletChar c = true := by
  cases t with
  | nil => simp [bulletStart, startsWithChars] at h
  | cons c rest =>
    refine ⟨c, rest, rfl, ?_⟩
    simp only [bulletStart, startsWithChars, Bool.or_eq_true, Bool.and_eq_true,
      beq_iff_eq] at h
    simp only [isBulletChar, Bool.or_eq_true, beq_iff_eq]
    rcases h with ⟨hc, -⟩ | ⟨hc, -⟩
    · exact Or.inl hc.symm
    · exact Or.inr hc.symm

/-- C6: the renderer splits on newlines, drops blank lines, and renders
each remaining line in input order: a line whose trimmed form starts
with the bullet-then-bold pattern (dash or bullet dot, a space, then
the marker) becomes the distinctly styled bold-bullet block with its
bullet stripped and the remainder passed through bold-span parsing; any
other line whose trimmed form starts with a dash or bullet dot becomes
the plain (secondary-style) bullet block; every other non-blank line
becomes a plain text block. -/
theorem C6_renderer_lines :
    (∀ text, parseMarkdown text = (splitOnNewline text).filterMap processLine)
    ∧ (∀ line, trimList line = [] → processLine line = none)
    ∧ (∀ line, boldBulletStart (trimList line) = true →
        processLine line
          = some ⟨BlockKind.boldBullet, renderBoldText (stripBullet (trimList line))⟩)
    ∧ (∀ line, trimList line ≠ [] → boldBulletStart (trimList line) = false →
        bulletStart (trimList line) = true →
        processLine line
          = some ⟨BlockKind.plainBullet, renderBoldText (stripBullet (trimList line))⟩)
    ∧ (∀ line, trimList line ≠ [] → bulletStart (trimList line) = false →
        processLine line
          = some ⟨BlockKind.textBlock, renderBoldText (trimList line)⟩) := by
  refine ⟨fun text => rfl, ?_, ?_, ?_, ?_⟩
  · intro line h
    simp [processLine, h]
  · intro line hbb
    have hne : trimList line ≠ [] := by
      intro hnil
      rw [hnil] at hbb
      simp [boldBulletStart, startsWithChars] at hbb
    have hb : bulletStart (trimList line) = true := bullet_of_boldBullet _ hbb
    simp [processLine, hne, lineKind, hbb, lineContent, hb]
  · intro line hne hbb hb
    simp [processLine, hne, lineKind, hbb, hb, lineContent]
  · intro line hne hb
    have hbb : boldBulletStart (trimList line) = false := by
      cases hx : boldBulletStart (trimList line) with
      | false => rfl
      | true =>
        rw [bullet_of_boldBullet _ hx] at hb
        exact absurd hb (by simp)
    simp [processLine, hne, lineKind, hbb, hb, lineContent]

/-- Witness for C6 at the sample input of the spec: three blocks in
input order, the blank line dropped, and the first line taken by the
bold-bullet branch. -/
theorem C6_renderer_lines_witness :
    parseMarkdown "- **Revenue**: up 5%\nPlain line\n\n- second bullet".data
        = [⟨BlockKind.boldBullet,
            [Segment.plain [], Segment.bold "Revenue".data, Segment.plain ": up 5%".data]⟩,
           ⟨BlockKind.textBlock, [Segment.plain "Plain line".data]⟩,
           ⟨BlockKind.plainBullet, [Segment.plain "second bullet".data]⟩]
    ∧ processLine "- **Revenue**: up 5%".data
        = some ⟨BlockKind.boldBullet,
            renderBoldText (stripBullet (trimList "- **Revenue**: up 5%".data))⟩ :=
  ⟨by decide, C6_renderer_lines.2.2.1 "- **Revenue**: up 5%".data (by decide)⟩

/-- C10: each line is trimmed before anything else, so processing a
line equals processing its trimmed form; a whitespace-only line is
dropped exactly like an empty one; and the content string of any
produced block starts and ends with a non-whitespace character, so no
block carries the line's leading or trailing whitespace. -/
theorem C10_line_trimming :
    (∀ line, processLine line = processLine (trimList line))
    ∧ (∀ line, (∀ c ∈ line, isJsWhitespace c = true) → processLine line = none)
    ∧ (∀ line c, (lineContent (trimList line)).head? = some c →
        isJsWhitespace c = false)
    ∧ (∀ line c, (lineContent (trimList line)).getLast? = some c →
        isJsWhitespace c = false) := by
  refine ⟨?_, ?_, ?_, ?_⟩
  · intro line
    unfold processLine
    rw [trim_idem]
  · intro line h
    simp [processLine, trim_all_ws line h]
  · intro line c hc
    by_cases hb : bulletStart (trimList line) = true
    · obtain ⟨d, rest, ht, hd⟩ := bullet_shape _ hb
      have hb2 : bulletStart (d :: rest) = true := by rw [← ht]; exact hb
      rw [ht] at hc
      simp only [lineContent, if_pos hb2, stripBullet, if_pos hd] at hc
      exact dropWhile_head_false _ _ _ hc
    · simp only [lineContent, if_neg hb] at hc
      exact trim_head _ _ hc
  · intro line c hc
    by_cases hb : bulletStart (trimList line) = true
    · obtain ⟨d, rest, ht, hd⟩ := bullet_shape _ hb
      have hb2 : bulletStart (d :: rest) = true := by rw [← ht]; exact hb
      rw [ht] at hc
      simp only [lineContent, if_pos hb2, stripBullet, if_pos hd] at hc
      have hne2 : rest.dropWhile isJsWhitespace ≠ [] := by
        intro hnil
        rw [hnil] at hc
        simp at hc
      rw [dropWhile_getLast _ _ hne2] at hc
      have hrne : rest ≠ [] := by
        intro hnil
        subst hnil
        simp at hc
      apply trim_getLast line c
      rw [ht]
      cases rest with
      | nil => exact absurd rfl hrne
      | cons b l2 =>
        rw [List.getLast?_cons_cons]
        exact hc
    · simp only [lineContent, if_neg hb] at hc
      exact trim_getLast _ _ hc

/-- Witness for C10 at the line "   - x  " (trimmed and bullet-stripped
to the single letter) and the whitespace-only line. -/
theorem C10_line_trimming_witness :
    processLine "   - x  ".data = processLine (trimList "   - x  ".data)
    ∧ processLine " \t ".data = none
    ∧ ((lineContent (trimList "   - x  ".data)).head? = some 'x'
        ∧ isJsWhitespace 'x' = false)
    ∧ ((lineContent (trimList "   - x  ".data)).getLast? = some 'x'
        ∧ isJsWhitespace 'x' = false) :=
  ⟨C10_line_trimming.1 "   - x  ".data,
   C10_line_trimming.2.1 " \t ".data (by decide),
   ⟨by decide, C10_line_trimming.2.2.1 "   - x  ".data 'x' (by decide)⟩,
   ⟨by decide, C10_line_trimming.2.2.2 "   - x  ".data 'x' (by decide)⟩⟩

end Chatbot
